import Mathlib

/-!
Verification development for the cardio-sonix audio-to-prediction pipeline.

The Python pipeline is shallowly embedded: waveforms and feature rows are
lists of rationals (idealising IEEE floats), tensors of rank 2 are lists of
rows, fallible constructors return `Except`, and the stateful wrapper object
is threaded explicitly.  Third-party numeric primitives keep only the
properties the pipeline relies on (for instance `np.exp` is an arbitrary
strictly positive function).
-/

namespace CardioSonix

/-- Embedding of `librosa.util.fix_length(data, size)` (called from
`SafeLoader.forward` in `pipeline/preprocessing/audio.py` and from
`Upload.check_duration` in `sonixhub/transforms/preprocessing.py`):
truncate to `size` samples when longer, zero-pad at the end when shorter,
return unchanged when the length already matches. -/
def fixLength (w : List ℚ) (size : ℕ) : List ℚ :=
  if size < w.length then w.take size
  else if w.length < size then w ++ List.replicate (size - w.length) 0
  else w

/-- Embedding of `librosa.get_duration(y=waveform, sr=sample_rate)`:
the number of samples divided by the sample rate (exact rational division
idealising the float division). -/
def getDuration (sampleRate : ℕ) (w : List ℚ) : ℚ :=
  (w.length : ℚ) / (sampleRate : ℚ)

/-- Embedding of `Upload.check_duration` from
`sonixhub/transforms/preprocessing.py`: if the measured duration differs
from the configured one, rescale with `fix_length` to
`duration * sample_rate` samples; otherwise return the waveform unchanged. -/
def checkDuration (sampleRate duration : ℕ) (w : List ℚ) : List ℚ :=
  if getDuration sampleRate w = (duration : ℚ) then w
  else fixLength w (duration * sampleRate)

theorem fixLength_length (w : List ℚ) (size : ℕ) :
    (fixLength w size).length = size := by
  unfold fixLength
  split
  · simpa using Nat.le_of_lt (by assumption)
  · split
    · simp; omega
    · omega

theorem fixLength_eq_self (w : List ℚ) (size : ℕ) (h : w.length = size) :
    fixLength w size = w := by
  unfold fixLength
  split
  · omega
  · split
    · omega
    · rfl

/-- C1: `AudioLoader.load` forces every waveform to exactly
`duration * sample_rate` samples: a shorter waveform is zero-padded at the
end with the original samples unchanged at the start, and a longer waveform
is truncated to exactly the prefix of the original. -/
theorem audioLoader_fix_length_spec (duration sampleRate : ℕ) (w : List ℚ) :
    (fixLength w (duration * sampleRate)).length = duration * sampleRate
    ∧ (w.length < duration * sampleRate →
        fixLength w (duration * sampleRate)
          = w ++ List.replicate (duration * sampleRate - w.length) 0)
    ∧ (duration * sampleRate < w.length →
        fixLength w (duration * sampleRate) = w.take (duration * sampleRate)) := by
  refine ⟨fixLength_length w _, fun hshort => ?_, fun hlong => ?_⟩
  · unfold fixLength
    rw [if_neg (by omega), if_pos hshort]
  · unfold fixLength
    rw [if_pos hlong]

theorem audioLoader_fix_length_spec_witness :
    fixLength [1, 2] (1 * 4) = [1, 2] ++ List.replicate (1 * 4 - 2) 0
    ∧ fixLength [1, 2, 3] (1 * 2) = [1, 2, 3].take (1 * 2) :=
  ⟨(audioLoader_fix_length_spec 1 4 [1, 2]).2.1 (by decide),
   (audioLoader_fix_length_spec 1 2 [1, 2, 3]).2.2 (by decide)⟩

/-- C8: a waveform whose length is already exactly
`duration * sample_rate` samples passes through the length-fixing step
unchanged, both via `fix_length` directly (`SafeLoader.forward`) and via
the duration test in `Upload.check_duration`. -/
theorem exact_length_waveform_unchanged (sampleRate duration : ℕ) (w : List ℚ)
    (h : w.length = duration * sampleRate) :
    fixLength w (duration * sampleRate) = w
    ∧ checkDuration sampleRate duration w = w := by
  refine ⟨fixLength_eq_self w _ h, ?_⟩
  unfold checkDuration
  split
  · rfl
  · exact fixLength_eq_self w _ h

theorem exact_length_waveform_unchanged_witness :
    fixLength [1, 2, 3, 4] (2 * 2) = [1, 2, 3, 4]
    ∧ checkDuration 2 2 [1, 2, 3, 4] = [1, 2, 3, 4] :=
  exact_length_waveform_unchanged 2 2 [1, 2, 3, 4] (by decide)

/-- Embedding of `PredictionSession._softmax` from `pipeline/sessions.py`
(`exp = np.exp(logites); return exp / np.sum(exp)`) and of
`F.softmax(logites, dim=0)` in `sonixhub/prod/wrapper.py`.  `np.exp` is
modelled as an arbitrary function `expf`; the theorems assume only that it
is strictly positive, the sole property of the exponential they use. -/
def softmax (expf : ℚ → ℚ) (logites : List ℚ) : List ℚ :=
  (logites.map expf).map (fun x => x / (logites.map expf).sum)

theorem sum_map_div (l : List ℚ) (s : ℚ) :
    (l.map (fun x => x / s)).sum = l.sum / s := by
  induction l with
  | nil => simp
  | cons a l ih => simp [ih, add_div]

theorem softmax_length (expf : ℚ → ℚ) (l : List ℚ) :
    (softmax expf l).length = l.length := by
  simp [softmax]

theorem softmax_sum_eq_one (expf : ℚ → ℚ) (hpos : ∀ x, 0 < expf x)
    (l : List ℚ) (hne : l ≠ []) : (softmax expf l).sum = 1 := by
  have hs : 0 < (l.map expf).sum := by
    refine List.sum_pos _ (fun x hx => ?_) (by simpa using hne)
    rcases List.mem_map.mp hx with ⟨a, _, rfl⟩
    exact hpos a
  unfold softmax
  rw [sum_map_div]
  exact div_self (ne_of_gt hs)

/-- C2: for every nonempty logits vector, the probability values produced
by the softmax step are each in `[0, 1]` and their sum equals 1, hence is
within `1e-4` of 1 (softmax normalization law). -/
theorem softmax_normalization (expf : ℚ → ℚ) (hpos : ∀ x, 0 < expf x)
    (logites : List ℚ) (hne : logites ≠ []) :
    (∀ p ∈ softmax expf logites, 0 ≤ p ∧ p ≤ 1)
    ∧ (softmax expf logites).sum = 1
    ∧ |(softmax expf logites).sum - 1| ≤ 1 / 10000 := by
  have hs : 0 < (logites.map expf).sum := by
    refine List.sum_pos _ (fun x hx => ?_) (by simpa using hne)
    rcases List.mem_map.mp hx with ⟨a, _, rfl⟩
    exact hpos a
  refine ⟨fun p hp => ?_, softmax_sum_eq_one expf hpos logites hne, ?_⟩
  · rcases List.mem_map.mp hp with ⟨e, he, rfl⟩
    have hepos : 0 < e := by
      rcases List.mem_map.mp he with ⟨a, _, rfl⟩
      exact hpos a
    have hle : e ≤ (logites.map expf).sum :=
      List.single_le_sum
        (fun x hx => by
          rcases List.mem_map.mp hx with ⟨a, _, rfl⟩
          exact le_of_lt (hpos a)) e he
    exact ⟨le_of_lt (div_pos hepos hs), (div_le_one hs).mpr hle⟩
  · rw [softmax_sum_eq_one expf hpos logites hne]
    norm_num

theorem softmax_normalization_witness :
    (∀ p ∈ softmax (fun _ => (1 : ℚ)) [0, 0, 0], 0 ≤ p ∧ p ≤ 1)
    ∧ (softmax (fun _ => (1 : ℚ)) [0, 0, 0]).sum = 1
    ∧ |(softmax (fun _ => (1 : ℚ)) [0, 0, 0]).sum - 1| ≤ 1 / 10000 :=
  softmax_normalization (fun _ => (1 : ℚ)) (fun _ => by norm_num)
    [0, 0, 0] (by decide)

/-- Maximum value of a list, as used implicitly by `argmax`. -/
def maxList : List ℚ → ℚ
  | [] => 0
  | [x] => x
  | x :: y :: xs => max x (maxList (y :: xs))

/-- Embedding of `np.argmax` / `torch.argmax` on a rank-1 tensor: the index
of the first occurrence of the maximum value (0 on the empty list, where
the libraries raise instead; the theorems always assume nonemptiness). -/
def argmaxList : List ℚ → ℕ
  | [] => 0
  | [_] => 0
  | x :: y :: xs => if maxList (y :: xs) ≤ x then 0 else argmaxList (y :: xs) + 1

theorem argmaxList_lt_length (l : List ℚ) (hne : l ≠ []) :
    argmaxList l < l.length := by
  induction l with
  | nil => exact absurd rfl hne
  | cons x xs ih =>
    cases xs with
    | nil => simp [argmaxList]
    | cons y ys =>
      rw [argmaxList]
      split
      · simp
      · have := ih (by simp)
        simpa [Nat.succ_lt_succ_iff] using this

theorem getD_argmaxList (l : List ℚ) (hne : l ≠ []) :
    l.getD (argmaxList l) 0 = maxList l := by
  induction l with
  | nil => exact absurd rfl hne
  | cons x xs ih =>
    cases xs with
    | nil => simp [argmaxList, maxList]
    | cons y ys =>
      by_cases h : maxList (y :: ys) ≤ x
      · rw [argmaxList, maxList, if_pos h]
        simp [max_eq_left h]
      · rw [argmaxList, maxList, if_neg h]
        have hmax := ih (by simp)
        simp only [List.getD_cons_succ]
        rw [hmax]
        exact (max_eq_right (le_of_lt (lt_of_not_le h))).symm

/-- State of a `BaseWrapper` instance (`sonixhub/prod/wrapper.py`): the
fixed class list, the loaded model weights, the model forward function
(weights and features to logits), the preprocessing pipeline (source
waveform to features), and the exponential used by `F.softmax`. -/
structure WrapperState where
  classes : List String
  weights : List ℚ
  modelFn : List ℚ → List ℚ → List ℚ
  pipelineFn : List ℚ → List ℚ
  expf : ℚ → ℚ

/-- The dictionary returned by `BaseWrapper.forward`:
`{"preds": ..., "probs": ..., "classes": ...}`. -/
structure WrapperOutput where
  preds : String
  probs : List ℚ
  classes : List String

namespace BaseWrapper

/-- Embedding of `BaseWrapper.label_decoding` for a scalar prediction
index: `self.classes[preds]` (Python raises `IndexError` out of range; the
`getD` default is never reached under the in-range hypotheses used). -/
def label_decoding (classes : List String) (preds : ℕ) : String :=
  classes.getD preds ""

/-- Embedding of `BaseWrapper.forward`: run the preprocessing pipeline,
apply the model, softmax the logits, take the argmax and decode it through
the class list.  The Python method reads `self` and never assigns to it,
so the explicit state threading returns the incoming state. -/
def forward (w : WrapperState) (source : List ℚ) : WrapperState × WrapperOutput :=
  let output := w.pipelineFn source
  let logites := w.modelFn w.weights output
  let probs := softmax w.expf logites
  let preds := argmaxList probs
  (w, { preds := label_decoding w.classes preds
        probs := probs
        classes := w.classes })

end BaseWrapper

/-- C7: a prediction call leaves the shared model weights (and the whole
wrapper state) unchanged: `BaseWrapper.forward` is read-only inference. -/
theorem wrapper_forward_preserves_weights (w : WrapperState) (source : List ℚ) :
    (BaseWrapper.forward w source).1.weights = w.weights
    ∧ (BaseWrapper.forward w source).1 = w :=
  ⟨rfl, rfl⟩

/-- C3: for every valid prediction (nonempty logits whose length matches
the class list), the predicted label in the result is the class name at
the argmax index of the softmax probabilities, it belongs to the fixed
class list, label decoding goes through the same class list that the
result returns, and the argmax index indeed holds the maximum
probability. -/
theorem wrapper_predicted_label_argmax (w : WrapperState) (source : List ℚ)
    (hne : w.modelFn w.weights (w.pipelineFn source) ≠ [])
    (hlen : w.classes.length = (w.modelFn w.weights (w.pipelineFn source)).length) :
    (BaseWrapper.forward w source).2.preds
      = BaseWrapper.label_decoding (BaseWrapper.forward w source).2.classes
          (argmaxList (BaseWrapper.forward w source).2.probs)
    ∧ (BaseWrapper.forward w source).2.preds ∈ w.classes
    ∧ (BaseWrapper.forward w source).2.classes = w.classes
    ∧ (BaseWrapper.forward w source).2.probs.getD
        (argmaxList (BaseWrapper.forward w source).2.probs) 0
      = maxList (BaseWrapper.forward w source).2.probs := by
  have hprobs_ne : softmax w.expf (w.modelFn w.weights (w.pipelineFn source)) ≠ [] := by
    intro h
    apply hne
    have := softmax_length w.expf (w.modelFn w.weights (w.pipelineFn source))
    rw [h] at this
    exact List.length_eq_zero.mp this.symm
  have hidx : argmaxList (softmax w.expf (w.modelFn w.weights (w.pipelineFn source)))
      < w.classes.length := by
    rw [hlen, ← softmax_length w.expf (w.modelFn w.weights (w.pipelineFn source))]
    exact argmaxList_lt_length _ hprobs_ne
  refine ⟨rfl, ?_, rfl, getD_argmaxList _ hprobs_ne⟩
  show BaseWrapper.label_decoding w.classes _ ∈ w.classes
  unfold BaseWrapper.label_decoding
  rw [List.getD_eq_getElem w.classes "" hidx]
  exact List.getElem_mem hidx

/-- A concrete wrapper over the fixed class list, with an identity pipeline
and model, used to instantiate the prediction theorem. -/
def wExample : WrapperState :=
  { classes := ["artifact", "healthy", "abnormal"]
    weights := []
    modelFn := fun _ f => f
    pipelineFn := fun s => s
    expf := fun _ => 1 }

theorem wrapper_predicted_label_argmax_witness :
    (BaseWrapper.forward wExample [1, 2, 3]).2.preds
      = BaseWrapper.label_decoding (BaseWrapper.forward wExample [1, 2, 3]).2.classes
          (argmaxList (BaseWrapper.forward wExample [1, 2, 3]).2.probs)
    ∧ (BaseWrapper.forward wExample [1, 2, 3]).2.preds ∈ wExample.classes
    ∧ (BaseWrapper.forward wExample [1, 2, 3]).2.classes = wExample.classes
    ∧ (BaseWrapper.forward wExample [1, 2, 3]).2.probs.getD
        (argmaxList (BaseWrapper.forward wExample [1, 2, 3]).2.probs) 0
      = maxList (BaseWrapper.forward wExample [1, 2, 3]).2.probs :=
  wrapper_predicted_label_argmax wExample [1, 2, 3] (by decide) (by decide)

/-- Arithmetic mean of a list, embedding `torch.Tensor.mean` on one axis
slice. -/
def listMean (l : List ℚ) : ℚ := l.sum / (l.length : ℚ)

/-- Mean over dimension 1 of a rank-2 tensor stored as a list of rows:
one mean per row. -/
def rowMeans (m : List (List ℚ)) : List ℚ := m.map listMean

/-- Mean over dimension 0 of a rank-2 tensor stored as a list of rows:
one mean per column. -/
def colMeans (m : List (List ℚ)) : List ℚ := rowMeans m.transpose

/-- Embedding of `tensor.mean(d)` on a rank-2 tensor for `d` in `{0, 1}`. -/
def meanDim (d : ℕ) (m : List (List ℚ)) : List ℚ :=
  if d = 0 then colMeans m else rowMeans m

/-- The `average_by` configuration value, `Literal["time", "mfcc"]` in the
source. -/
inductive AverageBy
  | time
  | mfcc

/-- The `average_dict = \x7b"mfcc": 0, "time": 1\x7d` of both
`MFCCExtractor` classes. -/
def average_dict : AverageBy → ℕ
  | AverageBy.mfcc => 0
  | AverageBy.time => 1

namespace SonixhubExtractors

/-- Embedding of `MFCCExtractor.forward` from
`sonixhub/transforms/extractors.py` for a configured `average_by`, acting
on the squeezed MFCC matrix `m` (rows indexed by coefficient, columns by
frame): `mfcc.mean(self.average_dict[self.__average_by])`. -/
def MFCCExtractor.forward (averageBy : AverageBy) (m : List (List ℚ)) : List ℚ :=
  meanDim (average_dict averageBy) m

end SonixhubExtractors

namespace PipelineAudio

/-- Embedding of `MFCCExtractor.forward` from
`pipeline/preprocessing/audio.py` for a configured `average_by`: this
version first transposes the squeezed matrix
(`self.mfcc_extractor(waveform).squeeze().T`) and then applies the same
`average_dict` lookup. -/
def MFCCExtractor.forward (averageBy : AverageBy) (m : List (List ℚ)) : List ℚ :=
  meanDim (average_dict averageBy) m.transpose

end PipelineAudio

/-- C4: in `sonixhub/transforms/extractors.py`, `average_by = "time"`
averages across the frame axis and yields one value per coefficient
(length `n_mfcc`), and `average_by = "mfcc"` averages across the
coefficient axis — as the claim states.  In
`pipeline/preprocessing/audio.py` the added transpose is not compensated
in `average_dict`, so on a 2-coefficient, 3-frame matrix the `"time"`
setting instead averages the coefficient axis and returns a length-3
(frame-count) vector, contradicting the claim. -/
theorem mfcc_average_axis_behaviour :
    PipelineAudio.MFCCExtractor.forward AverageBy.time [[1, 3, 5], [7, 9, 11]]
      = [4, 6, 8]
    ∧ SonixhubExtractors.MFCCExtractor.forward AverageBy.time [[1, 3, 5], [7, 9, 11]]
      = [3, 9]
    ∧ (∀ m : List (List ℚ),
        SonixhubExtractors.MFCCExtractor.forward AverageBy.time m = rowMeans m
        ∧ (SonixhubExtractors.MFCCExtractor.forward AverageBy.time m).length = m.length
        ∧ SonixhubExtractors.MFCCExtractor.forward AverageBy.mfcc m = colMeans m) := by
  refine ⟨?_, ?_, fun m => ⟨rfl, ?_, rfl⟩⟩
  · show rowMeans (([[1, 3, 5], [7, 9, 11]] : List (List ℚ)).transpose) = [4, 6, 8]
    have ht : ([[1, 3, 5], [7, 9, 11]] : List (List ℚ)).transpose
        = [[1, 7], [3, 9], [5, 11]] := rfl
    rw [ht]
    norm_num [rowMeans, listMean]
  · show rowMeans [[1, 3, 5], [7, 9, 11]] = [3, 9]
    norm_num [rowMeans, listMean]
  · simp [SonixhubExtractors.MFCCExtractor.forward, meanDim, average_dict, rowMeans]

/-- Error taxonomy of the pipeline.  The tabular constructor's missing-file
condition is raised in the source as `FileExistsError`, the name the spec's
taxonomy calls `ArtifactMissingError`; a record failing the fitted schema is
the spec's `SchemaError`. -/
inductive PipelineError
  | artifactMissing
  | schemaError
deriving DecidableEq

/-- Embedding of `os.path.join(os.getcwd(), self.__dirname, filename)`
relative to the working directory. -/
def getPath (dirname filename : String) : String :=
  dirname ++ "/" ++ filename

/-- Embedding of `TabularPreprocessor.__make_preprocessor` from
`pipeline/preprocessing/tabular.py` and `sonixhub/transforms/tabular.py`:
the on-disk artifact store is an association list from paths to fitted
transformers `τ`; if the path exists the artifact is loaded (looked up),
otherwise the missing-artifact error is raised. -/
def make_preprocessor {τ : Type} (disk : List (String × τ))
    (dirname filename : String) : Except PipelineError τ :=
  match disk.lookup (getPath dirname filename) with
  | some t => Except.ok t
  | none => Except.error PipelineError.artifactMissing

/-- A constructed `TabularPreprocessor`: the two fitted transformers loaded
in `__init__`. -/
structure TabularPreprocessor (τ : Type) where
  normalizer : τ
  encoder : τ

/-- Embedding of `TabularPreprocessor.__init__`: load the normalizer
artifact `Normalizer.joblib`, then the encoder artifact
`OneHotEncoder.joblib`, failing on the first absent file. -/
def TabularPreprocessor.init {τ : Type} (disk : List (String × τ))
    (dirname : String) : Except PipelineError (TabularPreprocessor τ) := do
  let n ← make_preprocessor disk dirname "Normalizer.joblib"
  let e ← make_preprocessor disk dirname "OneHotEncoder.joblib"
  pure { normalizer := n, encoder := e }

/-- C5: constructing `TabularPreprocessor` fails with the missing-artifact
error when either persisted transformer file is absent from disk, before
any per-request work; when both files exist, construction succeeds and
loads exactly those two artifacts. -/
theorem tabular_init_artifact_check {τ : Type} (disk : List (String × τ))
    (dirname : String) :
    ((disk.lookup (getPath dirname "Normalizer.joblib") = none
        ∨ disk.lookup (getPath dirname "OneHotEncoder.joblib") = none) →
      TabularPreprocessor.init disk dirname
        = Except.error PipelineError.artifactMissing)
    ∧ (∀ n e, disk.lookup (getPath dirname "Normalizer.joblib") = some n →
        disk.lookup (getPath dirname "OneHotEncoder.joblib") = some e →
        TabularPreprocessor.init disk dirname
          = Except.ok { normalizer := n, encoder := e }) := by
  constructor
  · intro h
    rcases h with h | h
    · unfold TabularPreprocessor.init make_preprocessor
      rw [h]
      rfl
    · unfold TabularPreprocessor.init make_preprocessor
      rw [h]
      cases disk.lookup (getPath dirname "Normalizer.joblib") <;> rfl
  · intro n e hn he
    unfold TabularPreprocessor.init make_preprocessor
    rw [hn, he]
    rfl

theorem tabular_init_artifact_check_witness :
    TabularPreprocessor.init ([("preprocessors/Normalizer.joblib", 7)] : List (String × ℕ))
        "preprocessors" = Except.error PipelineError.artifactMissing
    ∧ TabularPreprocessor.init
        [("preprocessors/Normalizer.joblib", 7), ("preprocessors/OneHotEncoder.joblib", 8)]
        "preprocessors"
        = Except.ok { normalizer := 7, encoder := 8 } :=
  ⟨(tabular_init_artifact_check [("preprocessors/Normalizer.joblib", 7)]
      "preprocessors").1 (Or.inr (by decide)),
   (tabular_init_artifact_check
      [("preprocessors/Normalizer.joblib", 7), ("preprocessors/OneHotEncoder.joblib", 8)]
      "preprocessors").2 7 8 (by decide) (by decide)⟩

/-- The numeric fields of a `TabularRecord`, as assembled by
`ExtraForm.quantity` in `utils/forms/extra_form.py`. -/
def requiredNumericFields : List String :=
  ["BMI", "PhysicalHealth", "MentalHealth", "SleepTime"]

/-- Modelled from the spec: the fitted numeric normalizer loaded from the
persisted `Normalizer.joblib` artifact is not under `src/` (only its
caller `TabularPreprocessor.normalize` is); per the spec, applying it to a
`TabularRecord` missing a required field raises `SchemaError`, and on a
complete record it returns the fixed-width numeric vector of the required
fields. -/
def fittedNormalizerTransform (record : List (String × ℚ)) :
    Except PipelineError (List ℚ) :=
  if requiredNumericFields.all (fun f => (record.lookup f).isSome) then
    Except.ok (requiredNumericFields.map (fun f => (record.lookup f).getD 0))
  else Except.error PipelineError.schemaError

/-- Embedding of `TabularPreprocessor.normalize`: hand the record to the
fitted normalizer (`self.__normalizer.transform(data)`). -/
def TabularPreprocessor.normalize (record : List (String × ℚ)) :
    Except PipelineError (List ℚ) :=
  fittedNormalizerTransform record

/-- C6: for every `TabularRecord` missing a required numeric field — in
particular the `BMI` field — `TabularPreprocessor.normalize` fails with
`SchemaError`. -/
theorem tabular_missing_field_schema_error (record : List (String × ℚ))
    (f : String) (hf : f ∈ requiredNumericFields)
    (hmiss : record.lookup f = none) :
    TabularPreprocessor.normalize record
      = Except.error PipelineError.schemaError := by
  unfold TabularPreprocessor.normalize fittedNormalizerTransform
  rw [if_neg]
  intro hall
  have := List.all_eq_true.mp hall f hf
  rw [hmiss] at this
  exact Bool.false_ne_true this

theorem tabular_missing_field_schema_error_witness :
    TabularPreprocessor.normalize
        [("PhysicalHealth", 0), ("MentalHealth", 0), ("SleepTime", 7)]
      = Except.error PipelineError.schemaError :=
  tabular_missing_field_schema_error
    [("PhysicalHealth", 0), ("MentalHealth", 0), ("SleepTime", 7)]
    "BMI" (by decide) (by decide)

namespace MultiLabelEncoder

/-- The `_no_yes` mapping of `MultiLabelEncoder`
(`utils/forms/extra_form.py`). -/
def no_yes : List (String × ℤ) := [("no", 0), ("yes", 1)]

/-- The `_sex` mapping. -/
def sex : List (String × ℤ) := [("female", 0), ("male", 1)]

/-- The `_gen_health` mapping. -/
def gen_health : List (String × ℤ) :=
  [("excellent", 0), ("very good", 1), ("good", 2), ("fair", 3), ("poor", 4)]

/-- The `_age_category` mapping. -/
def age_category : List (String × ℤ) :=
  [("18-24", 0), ("25-29", 1), ("30-34", 2), ("35-39", 3), ("40-44", 4),
   ("45-49", 5), ("50-54", 6), ("55-59", 7), ("60-64", 8), ("65-69", 9),
   ("70-74", 10), ("75-79", 11), ("80 or older", 12)]

/-- The `_race` mapping. -/
def race : List (String × ℤ) :=
  [("white", 0), ("black", 1), ("asian", 2),
   ("american indian / alaskan native", 3), ("other", 4), ("hispanic", 5)]

/-- The `_diabetic` mapping. -/
def diabetic : List (String × ℤ) :=
  [("no", 0), ("yes", 1), ("yes (during pregnancy)", 2),
   ("no, borderline diabetes", 3)]

/-- The `self.__fields` search order fixed in
`MultiLabelEncoder.__init__`. -/
def fields : List (List (String × ℤ)) :=
  [no_yes, sex, race, age_category, diabetic, gen_health]

/-- Embedding of Python `str.lower()`: lowercase character by character
(agrees with `category.lower()` on the ASCII mapping keys involved). -/
def pyLower (s : String) : String := String.mk (s.data.map Char.toLower)

/-- The loop body of `MultiLabelEncoder.encode`: walk the mappings in
order and return the first hit (`field.get(category, None)`); falling off
the end of the loop returns Python's implicit `None`. -/
def encodeLoop (category : String) : List (List (String × ℤ)) → Option ℤ
  | [] => none
  | f :: fs =>
    match f.lookup category with
    | some label => some label
    | none => encodeLoop category fs

/-- Embedding of `MultiLabelEncoder.encode`: lowercase the category and
search the six mappings in their fixed order. -/
def encode (category : String) : Option ℤ :=
  encodeLoop (pyLower category) fields

theorem encodeLoop_none (category : String) (fs : List (List (String × ℤ)))
    (h : ∀ f ∈ fs, f.lookup category = none) : encodeLoop category fs = none := by
  induction fs with
  | nil => rfl
  | cons f fs ih =>
    rw [encodeLoop, h f (by simp)]
    exact ih (fun g hg => h g (by simp [hg]))

theorem encodeLoop_first (category : String)
    (pre : List (List (String × ℤ))) (f : List (String × ℤ))
    (post : List (List (String × ℤ))) (v : ℤ)
    (hpre : ∀ g ∈ pre, g.lookup category = none)
    (hf : f.lookup category = some v) :
    encodeLoop category (pre ++ f :: post) = some v := by
  induction pre with
  | nil =>
    rw [List.nil_append, encodeLoop, hf]
  | cons g gs ih =>
    rw [List.cons_append, encodeLoop, hpre g (by simp)]
    exact ih (fun g hg => hpre g (by simp [hg]))

end MultiLabelEncoder

/-- C9: `MultiLabelEncoder.encode` returns `None` (rather than raising)
for a category whose lowercase form is in none of the six label mappings;
and when the lowercase category occurs in more than one mapping, the code
from the first mapping in the fixed search order
(`no_yes, sex, race, age_category, diabetic, gen_health`) is returned. -/
theorem multiLabelEncoder_encode_first_or_none (category : String) :
    ((∀ f ∈ MultiLabelEncoder.fields, f.lookup (MultiLabelEncoder.pyLower category) = none) →
      MultiLabelEncoder.encode category = none)
    ∧ (∀ pre f post v, MultiLabelEncoder.fields = pre ++ f :: post →
        (∀ g ∈ pre, g.lookup (MultiLabelEncoder.pyLower category) = none) →
        f.lookup (MultiLabelEncoder.pyLower category) = some v →
        MultiLabelEncoder.encode category = some v) := by
  constructor
  · intro h
    exact MultiLabelEncoder.encodeLoop_none (MultiLabelEncoder.pyLower category) _ h
  · intro pre f post v hsplit hpre hf
    unfold MultiLabelEncoder.encode
    rw [hsplit]
    exact MultiLabelEncoder.encodeLoop_first (MultiLabelEncoder.pyLower category) pre f post v hpre hf

theorem multiLabelEncoder_encode_first_or_none_witness :
    MultiLabelEncoder.encode "mystery" = none
    ∧ MultiLabelEncoder.encode "No" = some 0 :=
  ⟨(multiLabelEncoder_encode_first_or_none "mystery").1 (by decide),
   (multiLabelEncoder_encode_first_or_none "No").2
     [] MultiLabelEncoder.no_yes
     [MultiLabelEncoder.sex, MultiLabelEncoder.race, MultiLabelEncoder.age_category,
      MultiLabelEncoder.diabetic, MultiLabelEncoder.gen_health] 0
     rfl (by decide) (by decide)⟩

/-- State of a `PredictionSession` (`pipeline/sessions.py`): the loaded
model's declared input names, the fixed class list, the inference-runtime
call (a function from the name-to-array input mapping to the squeezed
logits vector), and the exponential used by `_softmax`. -/
structure PredictionSession where
  inputNames : List String
  classes : List String
  run : List (String × List ℚ) → List ℚ
  expf : ℚ → ℚ

namespace PredictionSession

/-- Embedding of `PredictionSession._get_input`:
`dict(zip(self.__input_names, args))`. -/
def get_input (s : PredictionSession) (args : List (List ℚ)) :
    List (String × List ℚ) :=
  s.inputNames.zip args

/-- Embedding of `PredictionSession.forward`: run the session on the input
mapping and softmax the squeezed logits. -/
def forward (s : PredictionSession) (inputs : List (String × List ℚ)) : List ℚ :=
  softmax s.expf (s.run inputs)

/-- Embedding of `PredictionSession._get_output`:
`dict(zip(self.__classes, probs))`. -/
def get_output (s : PredictionSession) (probs : List ℚ) : List (String × ℚ) :=
  s.classes.zip probs

/-- Embedding of `PredictionSession._get_predict`:
`self.__classes[probs.argmax()]`. -/
def get_predict (s : PredictionSession) (probs : List ℚ) : String :=
  s.classes.getD (argmaxList probs) ""

/-- Embedding of `PredictionSession.__call__`: build the input mapping,
run the forward pass, and return the predicted class with the
class-to-probability mapping. -/
def call (s : PredictionSession) (args : List (List ℚ)) :
    String × List (String × ℚ) :=
  let inputs := s.get_input args
  let probs := s.forward inputs
  (s.get_predict probs, s.get_output probs)

end PredictionSession

theorem zip_take_left_eq {α β : Type} (l : List α) (l2 : List β) :
    l.zip (l2.take l.length) = l.zip l2 := by
  induction l generalizing l2 with
  | nil => simp
  | cons a l ih =>
    cases l2 with
    | nil => simp
    | cons b l2 => simp [List.zip_cons_cons, ih]

/-- C10: calling `PredictionSession.__call__` with more input arrays than
the model declares input names silently drops the surplus arrays — the
`zip` building the name-to-array dict truncates — and the prediction
result is exactly the one obtained from the first `len(input_names)`
arrays, with no error raised. -/
theorem session_call_drops_surplus_inputs (s : PredictionSession)
    (args : List (List ℚ)) (hsurplus : s.inputNames.length < args.length) :
    PredictionSession.call s args
      = PredictionSession.call s (args.take s.inputNames.length)
    ∧ (PredictionSession.get_input s args).length = s.inputNames.length := by
  constructor
  · unfold PredictionSession.call PredictionSession.get_input
    rw [zip_take_left_eq]
  · unfold PredictionSession.get_input
    simp
    omega

/-- A concrete session with one declared input name, used to instantiate
the surplus-input theorem. -/
def sessionExample : PredictionSession :=
  { inputNames := ["input"]
    classes := ["artifact", "healthy", "abnormal"]
    run := fun inputs => (inputs.map (fun p => p.2.sum))
    expf := fun _ => 1 }

theorem session_call_drops_surplus_inputs_witness :
    PredictionSession.call sessionExample [[1, 2], [3, 4]]
      = PredictionSession.call sessionExample ([[1, 2], [3, 4]].take 1)
    ∧ (PredictionSession.get_input sessionExample [[1, 2], [3, 4]]).length = 1 :=
  session_call_drops_surplus_inputs sessionExample [[1, 2], [3, 4]] (by decide)

end CardioSonix
